import Mathlib

/-!
Verification of `src/util/resolver_mode.rs` from the bitcoin-pro repository:
the resolver-mode directive parser, the policy type `ResolverModeType`, and
the index-sequence generator `ResolverModeIter`.

Strings are embedded as `List Char`; machine integers (`u32`) as `Nat` with
explicit bounds where the source relies on them.
-/

namespace ResolverMode

/-- Kinds of failure of Rust's `u32::from_str` (`std::num::ParseIntError`):
empty input, a non-digit character, or overflow past `u32::MAX`. -/
inductive ParseIntError
  | Empty
  | InvalidDigit
  | PosOverflow
deriving DecidableEq, Repr

/-- Accumulating loop of Rust's `u32::from_str` (`from_str_radix` with radix 10):
consume decimal digits left to right, failing on the first non-digit and on the
first overflow past `u32::MAX`. -/
def u32FromStrGo : List Char → Nat → Except ParseIntError Nat
  | [], acc => .ok acc
  | c :: cs, acc =>
    if c.isDigit then
      if acc * 10 + (c.toNat - 48) < 2 ^ 32 then
        u32FromStrGo cs (acc * 10 + (c.toNat - 48))
      else .error .PosOverflow
    else .error .InvalidDigit

/-- Rust's `u32::from_str`: an empty string is an error; one optional leading
sign character is allowed, which for an unsigned type must be a single leading
plus sign followed by at least one digit; then digits are accumulated. -/
def u32FromStr : List Char → Except ParseIntError Nat
  | [] => .error .Empty
  | c :: cs =>
    if c = '+' then
      if cs = [] then .error .InvalidDigit else u32FromStrGo cs 0
    else u32FromStrGo (c :: cs) 0

/-- Modelled from the spec: the external type `wallet::bip32::UnhardenedIndex`
(not part of this repository) is an unsigned 32-bit integer restricted to the
non-hardened sub-range, i.e. its top bit is clear: a value below `2 ^ 31`. -/
structure UnhardenedIndex where
  val : Nat
  val_lt : val < 2 ^ 31

theorem UnhardenedIndex.ext {a b : UnhardenedIndex} (h : a.val = b.val) : a = b := by
  cases a; cases b; simp_all

instance : DecidableEq UnhardenedIndex := fun a b =>
  if h : a.val = b.val then .isTrue (UnhardenedIndex.ext h)
  else .isFalse (fun hab => h (by rw [hab]))

/-- Modelled from the spec: `UnhardenedIndex::from_index` succeeds exactly on
values in the non-hardened half of the 32-bit space (top bit clear) and fails
on hardened values (top bit set). -/
def UnhardenedIndex.from_index (n : Nat) : Option UnhardenedIndex :=
  if h : n < 2 ^ 31 then some ⟨n, h⟩ else none

/-- Modelled from the spec: `UnhardenedIndex::one()`. -/
def UnhardenedIndex.one : UnhardenedIndex := ⟨1, by norm_num⟩

/-- The `ParseError` enum of `resolver_mode.rs`: a wrapped integer-parse
failure, the dedicated hardened-index rejection, or an unrecognized directive
name carrying the offending text. -/
inductive ParseError
  | InvalidInteger (e : ParseIntError)
  | HardenedIndex
  | UnrecognizedTypeName (s : List Char)
deriving DecidableEq

/-- The `ResolverModeType` enum of `resolver_mode.rs`. -/
inductive ResolverModeType
  | While
  | First (i : UnhardenedIndex)
  | Random (i : UnhardenedIndex)
deriving DecidableEq

/-- The token `"while"` as a character list. -/
def whileTok : List Char := ['w', 'h', 'i', 'l', 'e']

/-- The token `"first"` as a character list. -/
def firstTok : List Char := ['f', 'i', 'r', 's', 't']

/-- The token `"random"` as a character list. -/
def randomTok : List Char := ['r', 'a', 'n', 'd', 'o', 'm']

/-- Rust's `str::strip_prefix`: `some` of the remainder when `p` is a prefix
of `s`, otherwise `none`. -/
def stripPref : List Char → List Char → Option (List Char)
  | [], s => some s
  | _ :: _, [] => none
  | a :: ps, b :: ss => if a = b then stripPref ps ss else none

/-- `FromStr for ResolverModeType` from `resolver_mode.rs`: strip the prefix
`"first"` (empty remainder gives count one, otherwise parse the remainder as a
`u32` and validate it as an unhardened index), then likewise for `"random"`,
then compare with `"while"`, and otherwise reject the token as unrecognized. -/
def from_str (s : List Char) : Except ParseError ResolverModeType :=
  match stripPref firstTok s with
  | some r =>
    if r = [] then .ok (.First .one)
    else
      match u32FromStr r with
      | .error e => .error (.InvalidInteger e)
      | .ok n =>
        match UnhardenedIndex.from_index n with
        | some i => .ok (.First i)
        | none => .error .HardenedIndex
  | none =>
  match stripPref randomTok s with
  | some r =>
    if r = [] then .ok (.Random .one)
    else
      match u32FromStr r with
      | .error e => .error (.InvalidInteger e)
      | .ok n =>
        match UnhardenedIndex.from_index n with
        | some i => .ok (.Random i)
        | none => .error .HardenedIndex
  | none =>
    if s = whileTok then .ok .While else .error (.UnrecognizedTypeName s)

/-- `ResolverModeType::count`: `1` for `While`, the plain numeric value of the
embedded index for `First`/`Random`. -/
def ResolverModeType.count : ResolverModeType → Nat
  | .While => 1
  | .First i => i.val
  | .Random i => i.val

/-- `ResolverModeType::range`: the half-open interval `0..count`, embedded as
the pair (start, end). -/
def ResolverModeType.range (m : ResolverModeType) : Nat × Nat := (0, m.count)

/-- `ResolverModeType::is_while`. -/
def ResolverModeType.is_while (m : ResolverModeType) : Bool :=
  decide (m = .While)

/-- `ResolverModeType::is_random`. -/
def ResolverModeType.is_random : ResolverModeType → Bool
  | .Random _ => true
  | _ => false

/-- Decimal representation of a natural number, modelling Rust's `Display`
for `u32` (used by `#[display("first{0}")]` / `#[display("random{0}")]`). -/
def natToChars (n : Nat) : List Char :=
  if h : n < 10 then [Char.ofNat (48 + n)]
  else natToChars (n / 10) ++ [Char.ofNat (48 + n % 10)]
decreasing_by omega

/-- `Display for ResolverModeType`: `"while"`, `"first{0}"`, `"random{0}"`. -/
def display : ResolverModeType → List Char
  | .While => whileTok
  | .First i => firstTok ++ natToChars i.val
  | .Random i => randomTok ++ natToChars i.val

/-- The `ResolverModeIter` struct: the policy, the per-sequence randomness
source (Rust's `ThreadRng`, modelled as a stream of draws together with a
position into it), and the cursor `offset`. -/
structure ResolverModeIter where
  mode : ResolverModeType
  rand : Nat → Nat
  rpos : Nat
  offset : Nat

/-- `IntoIterator for ResolverModeType`: a fresh iterator holding the mode, a
fresh randomness source, and the cursor at `range().start`. -/
def ResolverModeType.into_iter (m : ResolverModeType) (rng : Nat → Nat) : ResolverModeIter :=
  ⟨m, rng, 0, m.range.1⟩

/-- `Iterator::next for ResolverModeIter`: when the cursor has reached
`range().end` report end-of-sequence and leave the state unchanged; otherwise
emit either a fresh 32-bit random draw (`Random` mode) or the cursor itself,
and advance the cursor by one. -/
def ResolverModeIter.next (it : ResolverModeIter) : Option Nat × ResolverModeIter :=
  if it.offset ≥ it.mode.range.2 then (none, it)
  else
    ((some (if it.mode.is_random then it.rand it.rpos % 2 ^ 32 else it.offset)),
     ⟨it.mode, it.rand,
      (if it.mode.is_random then it.rpos + 1 else it.rpos),
      it.offset + 1⟩)

/-- Collect the values emitted by repeatedly calling `next`, with enough fuel;
`fuel` bounds the number of calls. -/
def ResolverModeIter.out : Nat → ResolverModeIter → List Nat
  | 0, _ => []
  | fuel + 1, it =>
    match it.next with
    | (none, _) => []
    | (some v, it') => v :: out fuel it'

/-- The full output sequence of one freshly created iterator over a policy:
`count` calls always suffice to exhaust it. -/
def ResolverModeType.run (m : ResolverModeType) (rng : Nat → Nat) : List Nat :=
  (m.into_iter rng).out m.count

/-- The value of a digit string under left-to-right decimal accumulation,
starting from `acc`. -/
def valGo : List Char → Nat → Nat
  | [], acc => acc
  | c :: cs, acc => valGo cs (acc * 10 + (c.toNat - 48))

/-- A non-empty string of ASCII decimal digits. -/
def decForm (ds : List Char) : Prop := ds ≠ [] ∧ ∀ c ∈ ds, c.isDigit = true

/-- A numeric suffix as Rust's `u32::from_str` actually accepts it: a
non-empty digit string, optionally preceded by one plus sign. -/
def plusForm (ds : List Char) : Prop :=
  decForm ds ∨ (∃ t, ds = '+' :: t ∧ decForm t)

/-- The numeric value of a suffix accepted by `u32::from_str`, ignoring an
optional leading plus sign. -/
def plusVal : List Char → Nat
  | [] => 0
  | c :: t => if c = '+' then valGo t 0 else valGo (c :: t) 0

/-- Written from the spec's grammar table (refinement target, deliberately
not from the source): the five directive forms `while`, `first`,
`first<N>`, `random`, `random<N>` with `N` a non-empty string of ASCII
decimal digits denoting a valid unhardened index, paired with the policy
the spec assigns to each form. -/
def fiveForms (s : List Char) (m : ResolverModeType) : Prop :=
  (s = whileTok ∧ m = .While) ∨
  (s = firstTok ∧ m = .First .one) ∨
  (s = randomTok ∧ m = .Random .one) ∨
  (∃ ds i, s = firstTok ++ ds ∧ decForm ds ∧ i.val = valGo ds 0 ∧ m = .First i) ∨
  (∃ ds i, s = randomTok ++ ds ∧ decForm ds ∧ i.val = valGo ds 0 ∧ m = .Random i)

/-- The spec's grammar amended by what `u32::from_str` accepts: the numeric
suffix may additionally carry one leading plus sign. -/
def acceptedForms (s : List Char) (m : ResolverModeType) : Prop :=
  (s = whileTok ∧ m = .While) ∨
  (s = firstTok ∧ m = .First .one) ∨
  (s = randomTok ∧ m = .Random .one) ∨
  (∃ ds i, s = firstTok ++ ds ∧ plusForm ds ∧ i.val = plusVal ds ∧ m = .First i) ∨
  (∃ ds i, s = randomTok ++ ds ∧ plusForm ds ∧ i.val = plusVal ds ∧ m = .Random i)

theorem valGo_append (a : Nat) (xs ys : List Char) :
    valGo (xs ++ ys) a = valGo ys (valGo xs a) := by
  induction xs generalizing a with
  | nil => rfl
  | cons c cs ih => exact ih (a * 10 + (c.toNat - 48))

theorem valGo_le (a : Nat) (xs : List Char) : a ≤ valGo xs a := by
  induction xs generalizing a with
  | nil => simp [valGo]
  | cons c cs ih =>
    calc a ≤ a * 10 + (c.toNat - 48) := by omega
    _ ≤ valGo cs (a * 10 + (c.toNat - 48)) := ih _
    _ = valGo (c :: cs) a := rfl

theorem digit_char_isDigit : ∀ d : Fin 10, (Char.ofNat (48 + d.val)).isDigit = true := by
  decide

theorem digit_char_toNat : ∀ d : Fin 10, (Char.ofNat (48 + d.val)).toNat - 48 = d.val := by
  decide

theorem natToChars_ne_nil (n : Nat) : natToChars n ≠ [] := by
  rw [natToChars]
  split <;> simp

theorem natToChars_digits (n : Nat) : ∀ c ∈ natToChars n, c.isDigit = true := by
  induction n using Nat.strong_induction_on with
  | _ n ih =>
    rw [natToChars]
    split
    · rename_i h
      intro c hc
      simp only [List.mem_singleton] at hc
      subst hc
      exact digit_char_isDigit ⟨n, h⟩
    · rename_i h
      intro c hc
      rcases List.mem_append.1 hc with hm | hm
      · exact ih (n / 10) (by omega) c hm
      · simp only [List.mem_singleton] at hm
        subst hm
        exact digit_char_isDigit ⟨n % 10, by omega⟩

theorem valGo_natToChars (n : Nat) : valGo (natToChars n) 0 = n := by
  induction n using Nat.strong_induction_on with
  | _ n ih =>
    rw [natToChars]
    split
    · rename_i h
      have hd : (Char.ofNat (48 + n)).toNat - 48 = n := digit_char_toNat ⟨n, h⟩
      simp only [valGo]
      omega
    · rename_i h
      rw [valGo_append, ih (n / 10) (by omega)]
      have hd : (Char.ofNat (48 + n % 10)).toNat - 48 = n % 10 :=
        digit_char_toNat ⟨n % 10, by omega⟩
      simp only [valGo]
      omega

theorem u32FromStrGo_ok (xs : List Char) : ∀ acc, (∀ c ∈ xs, c.isDigit = true) →
    valGo xs acc < 2 ^ 32 → u32FromStrGo xs acc = .ok (valGo xs acc) := by
  induction xs with
  | nil => intro acc _ _; simp [u32FromStrGo, valGo]
  | cons c cs ih =>
    intro acc hd hb
    have hc : c.isDigit = true := hd c (by simp)
    simp only [valGo] at hb
    have hlt : acc * 10 + (c.toNat - 48) < 2 ^ 32 := lt_of_le_of_lt (valGo_le _ cs) hb
    simp only [u32FromStrGo, hc, if_true, hlt, valGo]
    exact ih _ (fun x hx => hd x (by simp [hx])) hb

theorem u32FromStrGo_ok_inv (xs : List Char) : ∀ acc n, u32FromStrGo xs acc = .ok n →
    (∀ c ∈ xs, c.isDigit = true) ∧ n = valGo xs acc := by
  induction xs with
  | nil =>
    intro acc n h
    simp only [u32FromStrGo] at h
    injection h with h
    simp [valGo, h]
  | cons c cs ih =>
    intro acc n h
    simp only [u32FromStrGo] at h
    by_cases hc : c.isDigit = true
    · rw [if_pos hc] at h
      by_cases hb : acc * 10 + (c.toNat - 48) < 2 ^ 32
      · rw [if_pos hb] at h
        obtain ⟨hall, hval⟩ := ih _ _ h
        refine ⟨?_, hval⟩
        intro x hx
        rcases List.mem_cons.1 hx with hx | hx
        · subst hx; exact hc
        · exact hall x hx
      · rw [if_neg hb] at h
        exact absurd h (by simp)
    · rw [if_neg (by simpa using hc)] at h
      exact absurd h (by simp)

theorem u32FromStr_natToChars (n : Nat) (h : n < 2 ^ 32) :
    u32FromStr (natToChars n) = .ok n := by
  obtain ⟨c, cs, hcc⟩ : ∃ c cs, natToChars n = c :: cs := by
    cases hnc : natToChars n with
    | nil => exact absurd hnc (natToChars_ne_nil n)
    | cons c cs => exact ⟨c, cs, rfl⟩
  have hdig := natToChars_digits n
  have hcd : c.isDigit = true := hdig c (by rw [hcc]; simp)
  have hcne : ¬ (c = '+') := by
    intro he
    rw [he] at hcd
    exact absurd hcd (by decide)
  have hgo : u32FromStrGo (natToChars n) 0 = .ok n := by
    have := u32FromStrGo_ok (natToChars n) 0 hdig (by rw [valGo_natToChars]; exact h)
    rwa [valGo_natToChars] at this
  rw [hcc] at hgo ⊢
  simp only [u32FromStr]
  rw [if_neg hcne]
  exact hgo

theorem stripPref_append (p s : List Char) : stripPref p (p ++ s) = some s := by
  induction p with
  | nil => rfl
  | cons a ps ih => simp [stripPref, ih]

theorem stripPref_eq_some {p s r : List Char} : stripPref p s = some r ↔ s = p ++ r := by
  induction p generalizing s with
  | nil => simp [stripPref]
  | cons a ps ih =>
    cases s with
    | nil => simp [stripPref]
    | cons b ss =>
      by_cases hab : a = b
      · subst hab
        simp [stripPref, ih]
      · rw [show stripPref (a :: ps) (b :: ss) = none from by simp [stripPref, hab]]
        simp only [List.cons_append]
        constructor
        · intro h
          exact Option.noConfusion h
        · intro h
          injection h with h1 _
          exact absurd h1.symm hab

theorem from_str_first_append (S : List Char) (hS : S ≠ []) :
    from_str (firstTok ++ S) =
      (match u32FromStr S with
       | .error e => .error (.InvalidInteger e)
       | .ok n =>
         match UnhardenedIndex.from_index n with
         | some i => .ok (.First i)
         | none => .error .HardenedIndex) := by
  simp only [from_str, stripPref_append]
  rw [if_neg hS]

theorem stripPref_first_random (S : List Char) :
    stripPref firstTok (randomTok ++ S) = none := by
  simp [firstTok, randomTok, stripPref]

theorem from_str_random_append (S : List Char) (hS : S ≠ []) :
    from_str (randomTok ++ S) =
      (match u32FromStr S with
       | .error e => .error (.InvalidInteger e)
       | .ok n =>
         match UnhardenedIndex.from_index n with
         | some i => .ok (.Random i)
         | none => .error .HardenedIndex) := by
  simp only [from_str, stripPref_first_random, stripPref_append]
  rw [if_neg hS]

theorem from_index_eq_some {n : Nat} {i : UnhardenedIndex} :
    UnhardenedIndex.from_index n = some i ↔ i.val = n := by
  unfold UnhardenedIndex.from_index
  by_cases h : n < 2 ^ 31
  · rw [dif_pos h]
    constructor
    · intro he
      injection he with he
      rw [← he]
    · intro hv
      exact congrArg some (UnhardenedIndex.ext hv.symm)
  · rw [dif_neg h]
    constructor
    · intro he
      exact Option.noConfusion he
    · intro hv
      exact absurd (hv ▸ i.val_lt) h

theorem u32FromStr_ok_inv {s : List Char} {n : Nat} (h : u32FromStr s = .ok n) :
    plusForm s ∧ plusVal s = n := by
  cases s with
  | nil => exact absurd h (by simp [u32FromStr])
  | cons c cs =>
    simp only [u32FromStr] at h
    by_cases hc : c = '+'
    · rw [if_pos hc] at h
      by_cases hcs : cs = []
      · rw [if_pos hcs] at h
        exact absurd h (by simp)
      · rw [if_neg hcs] at h
        obtain ⟨hall, hval⟩ := u32FromStrGo_ok_inv cs 0 n h
        subst hc
        refine ⟨Or.inr ⟨cs, rfl, hcs, hall⟩, ?_⟩
        simp [plusVal, hval]
    · rw [if_neg hc] at h
      obtain ⟨hall, hval⟩ := u32FromStrGo_ok_inv (c :: cs) 0 n h
      refine ⟨Or.inl ⟨by simp, hall⟩, ?_⟩
      simp [plusVal, hc, hval]

theorem u32FromStr_ok_of_plusForm {ds : List Char} (h : plusForm ds)
    (hlt : plusVal ds < 2 ^ 32) : u32FromStr ds = .ok (plusVal ds) := by
  rcases h with ⟨hne, hall⟩ | ⟨t, hds, htne, hall⟩
  · cases ds with
    | nil => exact absurd rfl hne
    | cons c cs =>
      have hc : c.isDigit = true := hall c (by simp)
      have hcp : ¬ (c = '+') := by
        intro he
        rw [he] at hc
        exact absurd hc (by decide)
      simp only [plusVal, if_neg hcp] at hlt ⊢
      simp only [u32FromStr, if_neg hcp]
      exact u32FromStrGo_ok (c :: cs) 0 hall hlt
  · subst hds
    simp only [plusVal, if_pos rfl] at hlt ⊢
    cases t with
    | nil => exact absurd rfl htne
    | cons d ts =>
      simp only [u32FromStr, if_pos rfl, if_neg (by simp : ¬ (d :: ts = []))]
      exact u32FromStrGo_ok (d :: ts) 0 hall hlt

theorem from_str_unrecognized {s : List Char} (h1 : stripPref firstTok s = none)
    (h2 : stripPref randomTok s = none) (h3 : s ≠ whileTok) :
    from_str s = .error (.UnrecognizedTypeName s) := by
  simp only [from_str, h1, h2]
  rw [if_neg h3]

theorem next_of_ge (it : ResolverModeIter) (h : it.mode.count ≤ it.offset) :
    it.next = (none, it) := by
  simp only [ResolverModeIter.next, ResolverModeType.range]
  rw [if_pos h]

theorem next_of_lt (it : ResolverModeIter) (h : it.offset < it.mode.count) :
    it.next = (some (if it.mode.is_random then it.rand it.rpos % 2 ^ 32 else it.offset),
      ⟨it.mode, it.rand,
       (if it.mode.is_random then it.rpos + 1 else it.rpos), it.offset + 1⟩) := by
  simp only [ResolverModeIter.next, ResolverModeType.range]
  rw [if_neg (by omega)]

theorem out_zero (it : ResolverModeIter) : it.out 0 = [] := rfl

theorem out_length (fuel : Nat) : ∀ it : ResolverModeIter,
    it.mode.count - it.offset ≤ fuel → (it.out fuel).length = it.mode.count - it.offset := by
  induction fuel with
  | zero =>
    intro it h
    rw [out_zero]
    simp only [List.length_nil]
    omega
  | succ f ih =>
    intro it h
    by_cases hlt : it.offset < it.mode.count
    · simp only [ResolverModeIter.out]
      rw [next_of_lt it hlt]
      simp only [List.length_cons]
      have := ih ⟨it.mode, it.rand,
        (if it.mode.is_random then it.rpos + 1 else it.rpos), it.offset + 1⟩ (by simp; omega)
      simp only at this
      rw [this]
      omega
    · simp only [ResolverModeIter.out]
      rw [next_of_ge it (by omega)]
      simp only [List.length_nil]
      omega

theorem out_nonrandom (fuel : Nat) : ∀ it : ResolverModeIter,
    it.mode.is_random = false → it.mode.count - it.offset ≤ fuel →
    it.out fuel = List.range' it.offset (it.mode.count - it.offset) := by
  induction fuel with
  | zero =>
    intro it _ h
    rw [out_zero]
    rw [show it.mode.count - it.offset = 0 from by omega]
    rfl
  | succ f ih =>
    intro it hr h
    by_cases hlt : it.offset < it.mode.count
    · simp only [ResolverModeIter.out]
      rw [next_of_lt it hlt, hr]
      simp only [Bool.false_eq_true, if_false]
      have := ih ⟨it.mode, it.rand, it.rpos, it.offset + 1⟩ hr (by simp; omega)
      simp only at this
      rw [this]
      rw [show it.mode.count - it.offset = (it.mode.count - (it.offset + 1)) + 1 from by omega]
      rw [List.range'_succ]
    · simp only [ResolverModeIter.out]
      rw [next_of_ge it (by omega)]
      rw [show it.mode.count - it.offset = 0 from by omega]
      rfl

theorem run_eq_range {m : ResolverModeType} (hm : m.is_random = false) (rng : Nat → Nat) :
    m.run rng = List.range m.count := by
  unfold ResolverModeType.run
  have h := out_nonrandom m.count (m.into_iter rng) hm
    (by simp only [ResolverModeType.into_iter, ResolverModeType.range]; omega)
  simp only [ResolverModeType.into_iter, ResolverModeType.range] at h
  rw [List.range_eq_range']
  simpa using h

theorem run_length {m : ResolverModeType} (rng : Nat → Nat) :
    (m.run rng).length = m.count := by
  unfold ResolverModeType.run
  have h := out_length m.count (m.into_iter rng)
    (by simp only [ResolverModeType.into_iter, ResolverModeType.range]; omega)
  simp only [ResolverModeType.into_iter, ResolverModeType.range] at h
  simpa using h

/-- Claim C1: for every policy `While` or `First(n)`, iterating the sequence
created from it yields exactly `0, 1, ..., count-1` in strictly ascending
order (`While` yields exactly `[0]`, `First(n)` yields `[0, ..., n-1]`), and
the output is identical on every independently created sequence from the same
policy, whatever randomness sources back them. -/
theorem whileFirst_run_eq_range (m : ResolverModeType)
    (h : m = .While ∨ ∃ i, m = .First i) (rng₁ rng₂ : Nat → Nat) :
    m.run rng₁ = List.range m.count ∧ m.run rng₁ = m.run rng₂ := by
  have hm : m.is_random = false := by
    rcases h with h | ⟨i, h⟩ <;> subst h <;> rfl
  exact ⟨run_eq_range hm rng₁, (run_eq_range hm rng₁).trans (run_eq_range hm rng₂).symm⟩

/-- Witness for C1: the policy `First(3)` yields `[0, 1, 2] = range 3` under
two different randomness sources. -/
theorem whileFirst_run_eq_range_witness :
    ((ResolverModeType.First ⟨3, by norm_num⟩) = .While ∨
      ∃ i, (ResolverModeType.First ⟨3, by norm_num⟩) = .First i) ∧
    ((ResolverModeType.First ⟨3, by norm_num⟩).run (fun _ => 7) =
        List.range (ResolverModeType.First ⟨3, by norm_num⟩).count ∧
      (ResolverModeType.First ⟨3, by norm_num⟩).run (fun _ => 7) =
        (ResolverModeType.First ⟨3, by norm_num⟩).run (fun k => k)) :=
  ⟨Or.inr ⟨_, rfl⟩,
   whileFirst_run_eq_range _ (Or.inr ⟨_, rfl⟩) (fun _ => 7) (fun k => k)⟩

/-- Claim C2: a sequence created from `Random(n)` produces exactly `n` values
before reporting end-of-sequence, for every randomness source: the cursor
counts items produced, not the values emitted. -/
theorem random_run_length (i : UnhardenedIndex) (rng : Nat → Nat) :
    ((ResolverModeType.Random i).run rng).length = i.val :=
  run_length rng

/-- Claim C6: once the cursor has reached the range end, `next` reports
end-of-sequence, leaves the state unchanged, and every further output is
empty: exhaustion is terminal and raises no error. -/
theorem exhausted_idempotent (it : ResolverModeIter) (fuel : Nat)
    (h : it.mode.range.2 ≤ it.offset) :
    it.next = (none, it) ∧ it.out fuel = [] := by
  have hc : it.mode.count ≤ it.offset := h
  refine ⟨next_of_ge it hc, ?_⟩
  cases fuel with
  | zero => rfl
  | succ f =>
    simp only [ResolverModeIter.out]
    rw [next_of_ge it hc]

/-- Witness for C6: a `While` iterator whose cursor is already at 5 answers
`none`, keeps its state, and emits nothing in 7 further steps. -/
theorem exhausted_idempotent_witness :
    (ResolverModeIter.mk .While (fun _ => 0) 0 5).mode.range.2 ≤ 5 ∧
    ((ResolverModeIter.mk .While (fun _ => 0) 0 5).next =
        (none, ResolverModeIter.mk .While (fun _ => 0) 0 5) ∧
      (ResolverModeIter.mk .While (fun _ => 0) 0 5).out 7 = []) :=
  ⟨by norm_num [ResolverModeType.range, ResolverModeType.count],
   exhausted_idempotent _ 7 (by norm_num [ResolverModeType.range, ResolverModeType.count])⟩

/-- Claim C7: a sequence over a zero-count policy (`First(0)` or `Random(0)`)
reports end-of-sequence on the very first request and yields nothing, with no
error. -/
theorem zero_count_empty (i : UnhardenedIndex) (rng : Nat → Nat) (h : i.val = 0) :
    ((ResolverModeType.First i).into_iter rng).next.1 = none ∧
    (ResolverModeType.First i).run rng = [] ∧
    ((ResolverModeType.Random i).into_iter rng).next.1 = none ∧
    (ResolverModeType.Random i).run rng = [] := by
  have h1 := next_of_ge ((ResolverModeType.First i).into_iter rng)
    (by simp [ResolverModeType.into_iter, ResolverModeType.count, h])
  have h2 := next_of_ge ((ResolverModeType.Random i).into_iter rng)
    (by simp [ResolverModeType.into_iter, ResolverModeType.count, h])
  refine ⟨by rw [h1], ?_, by rw [h2], ?_⟩
  · unfold ResolverModeType.run
    rw [show (ResolverModeType.First i).count = 0 from h]
    rfl
  · unfold ResolverModeType.run
    rw [show (ResolverModeType.Random i).count = 0 from h]
    rfl

/-- Witness for C7: the zero-count policy built from index value 0 yields
nothing. -/
theorem zero_count_empty_witness :
    ((⟨0, by norm_num⟩ : UnhardenedIndex).val = 0) ∧
    (((ResolverModeType.First ⟨0, by norm_num⟩).into_iter (fun _ => 9)).next.1 = none ∧
      (ResolverModeType.First ⟨0, by norm_num⟩).run (fun _ => 9) = [] ∧
      ((ResolverModeType.Random ⟨0, by norm_num⟩).into_iter (fun _ => 9)).next.1 = none ∧
      (ResolverModeType.Random ⟨0, by norm_num⟩).run (fun _ => 9) = []) :=
  ⟨rfl, zero_count_empty ⟨0, by norm_num⟩ (fun _ => 9) rfl⟩

/-- Claim C8: `count()` is 1 for `While` and the plain numeric value of the
embedded index for `First(n)`/`Random(n)`, and `range()` is exactly the
half-open interval `[0, count())`. -/
theorem count_range_spec (m : ResolverModeType) (i : UnhardenedIndex) :
    ResolverModeType.count .While = 1 ∧
    (ResolverModeType.First i).count = i.val ∧
    (ResolverModeType.Random i).count = i.val ∧
    m.range = (0, m.count) :=
  ⟨rfl, rfl, rfl, rfl⟩

/-- Claim C9: two independently created sequences from the same `First(n)`
policy produce identical outputs; two sequences from the same `Random(n)`
policy each produce exactly `n` values (but are not required to match). -/
theorem first_deterministic_random_counted (i : UnhardenedIndex)
    (rng₁ rng₂ : Nat → Nat) :
    (ResolverModeType.First i).run rng₁ = (ResolverModeType.First i).run rng₂ ∧
    ((ResolverModeType.Random i).run rng₁).length = i.val ∧
    ((ResolverModeType.Random i).run rng₂).length = i.val :=
  ⟨(@run_eq_range (.First i) rfl rng₁).trans (@run_eq_range (.First i) rfl rng₂).symm,
   run_length rng₁, run_length rng₂⟩

/-- Claim C3: `parse("while") = While`, `parse("first") = First(1)`,
`parse("random") = Random(1)`, and for every valid non-hardened 32-bit index
`N`, `parse("first<N>") = First(N)` and `parse("random<N>") = Random(N)`,
where `<N>` is the decimal rendering of `N`. -/
theorem parse_grammar_accepts :
    from_str whileTok = .ok .While ∧
    from_str firstTok = .ok (.First .one) ∧
    from_str randomTok = .ok (.Random .one) ∧
    ∀ (n : Nat) (h : n < 2 ^ 31),
      from_str (firstTok ++ natToChars n) = .ok (.First ⟨n, h⟩) ∧
      from_str (randomTok ++ natToChars n) = .ok (.Random ⟨n, h⟩) := by
  refine ⟨rfl, rfl, rfl, ?_⟩
  intro n h
  have hok : u32FromStr (natToChars n) = .ok n := u32FromStr_natToChars n (by omega)
  have hfi : UnhardenedIndex.from_index n = some ⟨n, h⟩ := from_index_eq_some.mpr rfl
  constructor
  · rw [from_str_first_append _ (natToChars_ne_nil n)]
    simp [hok, hfi]
  · rw [from_str_random_append _ (natToChars_ne_nil n)]
    simp [hok, hfi]

/-- Witness for C3: `parse("first5") = First(5)`. -/
theorem parse_grammar_accepts_witness :
    (5 < 2 ^ 31) ∧ from_str (firstTok ++ natToChars 5) = .ok (.First ⟨5, by norm_num⟩) :=
  ⟨by norm_num, (parse_grammar_accepts.2.2.2 5 (by norm_num)).1⟩

/-- Claim C4: for `"first<S>"`/`"random<S>"` with `S` non-empty and not a
valid unsigned 32-bit decimal, parsing fails with the malformed-integer error
wrapping the integer-parse failure; when `S` parses to an integer with the
top bit set, parsing fails with the dedicated hardened-index error. -/
theorem parse_numeric_failures (S : List Char) (e : ParseIntError) (n : Nat) :
    (S ≠ [] → u32FromStr S = .error e →
      from_str (firstTok ++ S) = .error (.InvalidInteger e) ∧
      from_str (randomTok ++ S) = .error (.InvalidInteger e)) ∧
    (u32FromStr S = .ok n → 2 ^ 31 ≤ n →
      from_str (firstTok ++ S) = .error .HardenedIndex ∧
      from_str (randomTok ++ S) = .error .HardenedIndex) := by
  constructor
  · intro hne he
    constructor
    · rw [from_str_first_append S hne]
      simp [he]
    · rw [from_str_random_append S hne]
      simp [he]
  · intro hok hge
    have hne : S ≠ [] := by
      intro hS
      subst hS
      exact absurd hok (by simp [u32FromStr])
    have hfi : UnhardenedIndex.from_index n = none := by
      unfold UnhardenedIndex.from_index
      rw [dif_neg (by omega)]
    constructor
    · rw [from_str_first_append S hne]
      simp [hok, hfi]
    · rw [from_str_random_append S hne]
      simp [hok, hfi]

/-- Witness for C4: `parse("firstabc")` fails with the malformed-integer
error, and `parse("first2147483648")` (2^31, top bit set) fails with the
hardened-index error. -/
theorem parse_numeric_failures_witness :
    ((['a', 'b', 'c'] : List Char) ≠ [] ∧
      u32FromStr ['a', 'b', 'c'] = .error .InvalidDigit ∧
      from_str (firstTok ++ ['a', 'b', 'c']) = .error (.InvalidInteger .InvalidDigit)) ∧
    (u32FromStr ['2', '1', '4', '7', '4', '8', '3', '6', '4', '8'] = .ok 2147483648 ∧
      2 ^ 31 ≤ 2147483648 ∧
      from_str (firstTok ++ ['2', '1', '4', '7', '4', '8', '3', '6', '4', '8']) =
        .error .HardenedIndex) :=
  ⟨⟨by simp, rfl,
    ((parse_numeric_failures ['a', 'b', 'c'] .InvalidDigit 0).1 (by simp) rfl).1⟩,
   ⟨rfl, by norm_num,
    ((parse_numeric_failures ['2', '1', '4', '7', '4', '8', '3', '6', '4', '8']
        .Empty 2147483648).2 rfl (by norm_num)).1⟩⟩

/-- Claim C10: formatting any policy to its textual directive and parsing the
text back yields the original policy. -/
theorem display_parse_roundtrip (m : ResolverModeType) :
    from_str (display m) = .ok m := by
  cases m with
  | While => rfl
  | First i =>
    show from_str (firstTok ++ natToChars i.val) = .ok (.First i)
    rw [from_str_first_append _ (natToChars_ne_nil i.val),
      u32FromStr_natToChars i.val (by have := i.val_lt; omega)]
    simp [from_index_eq_some.mpr (rfl : i.val = i.val)]
  | Random i =>
    show from_str (randomTok ++ natToChars i.val) = .ok (.Random i)
    rw [from_str_random_append _ (natToChars_ne_nil i.val),
      u32FromStr_natToChars i.val (by have := i.val_lt; omega)]
    simp [from_index_eq_some.mpr (rfl : i.val = i.val)]

/-- Counterexample to C5 as stated: `"first+5"` matches none of the five
grammar forms (its suffix `+5` is not a digit string), yet the parser accepts
it as `First(5)`, because `u32::from_str` tolerates one leading plus sign. -/
theorem parse_plus_sign_counterexample :
    from_str (firstTok ++ ['+', '5']) = .ok (.First ⟨5, by norm_num⟩) ∧
    ¬ fiveForms (firstTok ++ ['+', '5']) (.First ⟨5, by norm_num⟩) := by
  refine ⟨rfl, ?_⟩
  intro h
  rcases h with ⟨h1, _⟩ | ⟨h1, _⟩ | ⟨h1, _⟩ | ⟨ds, i, h1, hd, _, _⟩ | ⟨ds, i, h1, _, _, _⟩
  · exact absurd h1 (by decide)
  · exact absurd h1 (by decide)
  · exact absurd h1 (by decide)
  · have hds : ['+', '5'] = ds := List.append_cancel_left h1
    rcases hd with ⟨_, hall⟩
    exact absurd (hall '+' (by rw [← hds]; simp)) (by decide)
  · simp only [firstTok, randomTok, List.cons_append] at h1
    injection h1 with hh _
    exact absurd hh (by decide)

/-- Claim C5 amended: the parser accepts exactly the five grammar forms,
except that the numeric suffix of `first<N>`/`random<N>` may additionally
carry one leading plus sign (`acceptedForms`); and every token that does not
start with `first` or `random` and is not `while` fails with the
unrecognized-directive error carrying the offending text. -/
theorem parse_accepts_exactly (s : List Char) (m : ResolverModeType) :
    (from_str s = .ok m ↔ acceptedForms s m) ∧
    (stripPref firstTok s = none → stripPref randomTok s = none → s ≠ whileTok →
      from_str s = .error (.UnrecognizedTypeName s)) := by
  refine ⟨⟨?_, ?_⟩, fun h1 h2 h3 => from_str_unrecognized h1 h2 h3⟩
  · intro h
    cases hf : stripPref firstTok s with
    | some r =>
      obtain rfl : s = firstTok ++ r := stripPref_eq_some.mp hf
      by_cases hr : r = []
      · subst hr
        rw [List.append_nil] at h
        have h2 : (Except.ok (ResolverModeType.First .one) :
            Except ParseError ResolverModeType) = .ok m := by rw [← h]; rfl
        injection h2 with h2
        exact Or.inr (Or.inl ⟨by simp, h2.symm⟩)
      · rw [from_str_first_append r hr] at h
        cases hu : u32FromStr r with
        | error e => simp [hu] at h
        | ok n =>
          cases hfi : UnhardenedIndex.from_index n with
          | none => simp [hu, hfi] at h
          | some i =>
            have heq : from_str (firstTok ++ r) = Except.ok (.First i) := by
              rw [from_str_first_append r hr]
              simp [hu, hfi]
            rw [from_str_first_append r hr] at heq
            rw [heq] at h
            have hm : m = .First i := (Except.ok.inj h).symm
            obtain ⟨hpf, hpv⟩ := u32FromStr_ok_inv hu
            exact Or.inr (Or.inr (Or.inr (Or.inl ⟨r, i, rfl, hpf,
              by rw [hpv]; exact from_index_eq_some.mp hfi, hm⟩)))
    | none =>
      cases hg : stripPref randomTok s with
      | some r =>
        obtain rfl : s = randomTok ++ r := stripPref_eq_some.mp hg
        by_cases hr : r = []
        · subst hr
          rw [List.append_nil] at h
          have h2 : (Except.ok (ResolverModeType.Random .one) :
              Except ParseError ResolverModeType) = .ok m := by rw [← h]; rfl
          injection h2 with h2
          exact Or.inr (Or.inr (Or.inl ⟨by simp, h2.symm⟩))
        · rw [from_str_random_append r hr] at h
          cases hu : u32FromStr r with
          | error e => simp [hu] at h
          | ok n =>
            cases hfi : UnhardenedIndex.from_index n with
            | none => simp [hu, hfi] at h
            | some i =>
              have heq : from_str (randomTok ++ r) = Except.ok (.Random i) := by
                rw [from_str_random_append r hr]
                simp [hu, hfi]
              rw [from_str_random_append r hr] at heq
              rw [heq] at h
              have hm : m = .Random i := (Except.ok.inj h).symm
              obtain ⟨hpf, hpv⟩ := u32FromStr_ok_inv hu
              exact Or.inr (Or.inr (Or.inr (Or.inr ⟨r, i, rfl, hpf,
                by rw [hpv]; exact from_index_eq_some.mp hfi, hm⟩)))
      | none =>
        by_cases hw : s = whileTok
        · subst hw
          have h2 : (Except.ok ResolverModeType.While :
              Except ParseError ResolverModeType) = .ok m := by rw [← h]; rfl
          injection h2 with h2
          exact Or.inl ⟨rfl, h2.symm⟩
        · rw [from_str_unrecognized hf hg hw] at h
          exact absurd h (by simp)
  · intro h
    rcases h with ⟨hs, hm⟩ | ⟨hs, hm⟩ | ⟨hs, hm⟩ |
      ⟨ds, i, hs, hpf, hv, hm⟩ | ⟨ds, i, hs, hpf, hv, hm⟩
    · subst hs; subst hm; rfl
    · subst hs; subst hm; rfl
    · subst hs; subst hm; rfl
    · subst hs; subst hm
      have hne : ds ≠ [] := by
        rcases hpf with ⟨hne, _⟩ | ⟨t, hds, _⟩
        · exact hne
        · subst hds; simp
      rw [from_str_first_append ds hne,
        u32FromStr_ok_of_plusForm hpf (by rw [← hv]; have := i.val_lt; omega)]
      simp [show UnhardenedIndex.from_index (plusVal ds) = some i from
        from_index_eq_some.mpr hv]
    · subst hs; subst hm
      have hne : ds ≠ [] := by
        rcases hpf with ⟨hne, _⟩ | ⟨t, hds, _⟩
        · exact hne
        · subst hds; simp
      rw [from_str_random_append ds hne,
        u32FromStr_ok_of_plusForm hpf (by rw [← hv]; have := i.val_lt; omega)]
      simp [show UnhardenedIndex.from_index (plusVal ds) = some i from
        from_index_eq_some.mpr hv]

/-- Witness for C5 (amended): `parse("banana")` fails with the
unrecognized-directive error carrying `"banana"`. -/
theorem parse_accepts_exactly_witness :
    (stripPref firstTok ['b', 'a', 'n', 'a', 'n', 'a'] = none ∧
      stripPref randomTok ['b', 'a', 'n', 'a', 'n', 'a'] = none ∧
      (['b', 'a', 'n', 'a', 'n', 'a'] : List Char) ≠ whileTok) ∧
    from_str ['b', 'a', 'n', 'a', 'n', 'a'] =
      .error (.UnrecognizedTypeName ['b', 'a', 'n', 'a', 'n', 'a']) :=
  ⟨⟨rfl, rfl, by decide⟩,
   (parse_accepts_exactly ['b', 'a', 'n', 'a', 'n', 'a'] .While).2 rfl rfl (by decide)⟩

end ResolverMode
